import Mathlib

/-!
# markymark: a local Markdown preview server

A shallow embedding of the Go sources `main.go`, `internal/markdown/markdown.go`,
`internal/finder/finder.go` and `internal/server/server.go`.

Conventions of the embedding:

* Go `string` and `[]byte` values are Lean `String`s; `strings.HasPrefix` and
  `strings.TrimPrefix` compare the character lists (the patterns used by the
  program are ASCII, for which byte-wise and character-wise comparison agree).
* A Go `map[string]bool` is an association list `GoMap` with Go's lookup
  (absent keys read as `false`) and assignment (an existing key is overwritten).
* Code that takes a lock, runs and releases the lock is one atomic function on
  the `Server` state; the file system is the result of `os.ReadFile` /
  `os.ReadDir` (`none` when the call returns an error).
* Time is a natural number of milliseconds.
-/

namespace Markymark

/-! ## Strings (package `strings`) -/

/-- `strings.HasPrefix(s, p)`. -/
def HasPrefix (s p : String) : Bool :=
  p.data.isPrefixOf s.data

/-- `strings.TrimPrefix(s, p)`: `s` without the leading `p`, or `s` itself
when `s` does not start with `p`. -/
def TrimPrefix (s p : String) : String :=
  if HasPrefix s p then String.mk (s.data.drop p.data.length) else s

/-- `strings.ToLower(s)`: every rune is replaced by its lower-case form. The
rune table `unicode.ToLower` of the standard library is the argument `lower`. -/
def ToLower (lower : Char → Char) (s : String) : String :=
  String.mk (s.data.map lower)

/-- The ASCII part of `unicode.ToLower`, used to evaluate examples. -/
def asciiLower (c : Char) : Char :=
  if 65 ≤ c.toNat ∧ c.toNat ≤ 90 then Char.ofNat (c.toNat + 32) else c

/-! ## `map[string]bool` -/

/-- A Go `map[string]bool` as an association list. -/
abbrev GoMap := List (String × Bool)

namespace GoMap

/-- The expression `m[k]`: the stored value, `false` for an absent key. -/
def get : GoMap → String → Bool
  | [], _ => false
  | (k', v) :: t, k => if k' = k then v else get t k

/-- The statement `m[k] = v`. -/
def set : GoMap → String → Bool → GoMap
  | [], k, v => [(k, v)]
  | (k', v') :: t, k, v => if k' = k then (k', v) :: t else (k', v') :: set t k v

/-- The keys stored in the map. -/
def keys (m : GoMap) : List String :=
  m.map Prod.fst

end GoMap

/-! ## The Markdown syntax tree (`gomarkdown/markdown/ast`) -/

/-- An `ast.Node`. The program distinguishes `*ast.Image` from every other
node; the walk distinguishes containers from leaves. -/
inductive Node where
  | Image (Destination : String) (Children : List Node)
  | Container (Children : List Node)
  | Leaf (Literal : String)

/-- The type `ast.WalkStatus`. -/
inductive WalkStatus where
  | GoToNext
  | SkipChildren
  | Terminate
  deriving DecidableEq, Repr

/-- The body of `ast.Walk` for a container node `n` whose children are walked
by `kids`: visit on entering, walk the children unless told to skip, visit
on leaving (also when the entering visit terminates the walk). -/
def walkContainer {σ : Type} (visit : Node → Bool → σ → WalkStatus × σ) (n : Node)
    (kids : σ → WalkStatus × σ) (s : σ) : WalkStatus × σ :=
  let r := visit n true s
  if r.1 = WalkStatus.Terminate then
    (WalkStatus.Terminate, (visit n false r.2).2)
  else
    let r2 := if r.1 = WalkStatus.SkipChildren then (WalkStatus.GoToNext, r.2) else kids r.2
    if r2.1 = WalkStatus.Terminate then r2
    else
      let r3 := visit n false r2.2
      if r3.1 = WalkStatus.Terminate then r3 else (WalkStatus.GoToNext, r3.2)

mutual
/-- The traversal `ast.Walk(n, visitor)`, threading the visitor's captured state. -/
def Walk {σ : Type} (visit : Node → Bool → σ → WalkStatus × σ) : Node → σ → WalkStatus × σ
  | Node.Leaf l, s =>
    let r := visit (Node.Leaf l) true s
    if r.1 = WalkStatus.Terminate then r else (WalkStatus.GoToNext, r.2)
  | Node.Container cs, s => walkContainer visit (Node.Container cs) (WalkChildren visit cs) s
  | Node.Image d cs, s => walkContainer visit (Node.Image d cs) (WalkChildren visit cs) s
/-- The loop of `ast.Walk` over the children of a container. -/
def WalkChildren {σ : Type} (visit : Node → Bool → σ → WalkStatus × σ) :
    List Node → σ → WalkStatus × σ
  | [], s => (WalkStatus.GoToNext, s)
  | n :: ns, s =>
    let r := Walk visit n s
    if r.1 = WalkStatus.Terminate then r else WalkChildren visit ns r.2
end

/-! ## `internal/markdown/markdown.go` -/

/-- `isAbsoluteURL(s)`. -/
def isAbsoluteURL (s : String) : Bool :=
  HasPrefix s "http://" || HasPrefix s "https://" || HasPrefix s "//"

/-- The closure passed to `ast.WalkFunc` by `ExtractRelativeImages`; the
captured map `allowed` is the threaded state. -/
def extractVisit (node : Node) (entering : Bool) (allowed : GoMap) : WalkStatus × GoMap :=
  match node with
  | Node.Image dest _ =>
    if !entering then (WalkStatus.GoToNext, allowed)
    else if isAbsoluteURL dest then (WalkStatus.GoToNext, allowed)
    else (WalkStatus.GoToNext, allowed.set dest true)
  | _ => (WalkStatus.GoToNext, allowed)

/-- `ExtractRelativeImages(doc)`. -/
def ExtractRelativeImages (doc : Node) : GoMap :=
  (Walk extractVisit doc []).2

mutual
/-- Specification side: the image destinations occurring in a tree, in
document order. -/
def imageDestinations : Node → List String
  | Node.Leaf _ => []
  | Node.Container cs => imageDestinationsList cs
  | Node.Image d cs => d :: imageDestinationsList cs
/-- Specification side: the image destinations occurring in a list of trees. -/
def imageDestinationsList : List Node → List String
  | [] => []
  | n :: ns => imageDestinations n ++ imageDestinationsList ns
end

/-! ## `internal/finder/finder.go` -/

/-- An `os.DirEntry`, as far as `FindReadme` inspects it. -/
structure DirEntry where
  Name : String
  IsDir : Bool
  deriving DecidableEq, Repr

/-- The `for _, entry := range entries` loop of `FindReadme`. -/
def findReadmeLoop (lower : Char → Char) : List DirEntry → String
  | [] => ""
  | entry :: rest =>
    if entry.IsDir then findReadmeLoop lower rest
    else if ToLower lower entry.Name = "readme.md" then entry.Name
    else findReadmeLoop lower rest

/-- `FindReadme()`; `readDir` is the result of `os.ReadDir(".")`, `none` when
it returns an error. -/
def FindReadme (lower : Char → Char) (readDir : Option (List DirEntry)) : String :=
  match readDir with
  | none => ""
  | some entries => findReadmeLoop lower entries

/-- Specification side: the entries `FindReadme` looks for. -/
def isReadme (lower : Char → Char) (e : DirEntry) : Bool :=
  !e.IsDir && decide (ToLower lower e.Name = "readme.md")


/-! ## Rendering (`templ.Component`, `main.go`) -/

/-- A `templ.Component`, observed through its `Render(ctx, w)` method: the
bytes it writes to `w` and whether it returns an error. -/
structure Component where
  written : String
  failed : Bool
  deriving DecidableEq, Repr

/-- The functions `main.go` calls that are outside the listed sources: the
`templ` page template `TemplatePage(title, body, watchMode)` and the
`gomarkdown` parser and renderer behind `markdown.Parse` and `markdown.Render`. -/
structure Lib where
  TemplatePage : String → String → Bool → Component
  Parse : String → Node
  Render : Node → String

/-- The type `componentFunc`; the argument is what `os.ReadFile(absPath)` returns
at the time of the call (`none` for an error). -/
abbrev componentFunc := Option String → Component

/-- The closure `componentFn` of `main`. -/
def componentFn (lib : Lib) (watchMode : Bool) : componentFunc :=
  fun readFile =>
    match readFile with
    | none => lib.TemplatePage "Markdown" "" watchMode
    | some content =>
      let doc := lib.Parse content
      let body := lib.Render doc
      lib.TemplatePage "Markdown" body watchMode

/-! ## `internal/server/server.go` -/

/-- A `chan struct{}`: its identity (the channel is a map key), its capacity
and the number of tokens in its buffer. -/
structure Chan where
  id : Nat
  cap : Nat
  len : Nat
  deriving DecidableEq, Repr

/-- The statement `select { case ch <- struct{}{}: default: }`: the token is
buffered when there is room and dropped otherwise. -/
def Chan.trySend (ch : Chan) : Chan :=
  if ch.len < ch.cap then { ch with len := ch.len + 1 } else ch

/-- The receive `<-ch` of a ready channel: one token leaves the buffer. -/
def Chan.recv (ch : Chan) : Chan :=
  { ch with len := ch.len - 1 }

/-- The struct `Server` (the locks `mu` and `sseMu` are the atomicity of the
functions below). -/
structure Server where
  componentFn : componentFunc
  baseDir : String
  allowedImages : GoMap
  watchMode : Bool
  filePath : String
  html : String
  sseClients : List Chan

/-- `(*Server).render(c)`: the buffer the component rendered into, also when
`Render` returned an error (which is logged). -/
def render (c : Component) : String :=
  "" ++ c.written

/-- `New(componentFn, baseDir, allowedImages, watchMode, filePath)`; `readFile`
is what the document read inside `componentFn()` returns. -/
def New (componentFn : componentFunc) (baseDir : String) (allowedImages : GoMap)
    (watchMode : Bool) (filePath : String) (readFile : Option String) : Server :=
  { componentFn := componentFn
    baseDir := baseDir
    allowedImages := allowedImages
    watchMode := watchMode
    filePath := filePath
    html := render (componentFn readFile)
    sseClients := [] }

/-- `(*Server).broadcast()`. -/
def broadcast (s : Server) : Server :=
  { s with sseClients := s.sseClients.map Chan.trySend }

/-- The function given to `time.AfterFunc` in `watch`: what runs when the
debounce timer expires. `readFile` is the result of the document read. -/
def debounceCallback (s : Server) (readFile : Option String) : Server :=
  let component := s.componentFn readFile
  let html := render component
  broadcast { s with html := html }

/-- What the root handler does with a request. -/
inductive Outcome where
  | WriteHtml (body : String)
  | FileServer (urlPath : String)
  | NotFound
  deriving DecidableEq, Repr

/-- The handler registered for `"/"` in `Start`, applied to `r.URL.Path`. -/
def rootHandler (s : Server) (urlPath : String) : Outcome :=
  if urlPath = "/" then Outcome.WriteHtml s.html
  else
    let reqPath := TrimPrefix urlPath "/"
    if s.allowedImages.get reqPath || s.allowedImages.get ("./" ++ reqPath) then
      Outcome.FileServer urlPath
    else Outcome.NotFound

/-- The `/__reload` handler on connect: `ch := make(chan struct{}, 1)` and
`s.sseClients[ch] = struct{}{}`; `id` is the identity of the new channel. -/
def register (s : Server) (id : Nat) : Server :=
  { s with sseClients := s.sseClients ++ [{ id := id, cap := 1, len := 0 }] }

/-- The deferred `delete(s.sseClients, ch)` of the `/__reload` handler. -/
def unregister (s : Server) (id : Nat) : Server :=
  { s with sseClients := s.sseClients.filter (fun ch => ch.id != id) }

/-- The `case <-ch:` branch of the `/__reload` handler for channel `id`. -/
def receive (s : Server) (id : Nat) : Server :=
  { s with sseClients := s.sseClients.map (fun ch => if ch.id = id then ch.recv else ch) }

/-- The operations that run on a server after `New`. -/
inductive ServerOp where
  | Reload (readFile : Option String)
  | Broadcast
  | Register (id : Nat)
  | Unregister (id : Nat)
  | Receive (id : Nat)
  | Request (urlPath : String)

/-- The state after one operation; a request to the root handler only reads. -/
def ServerOp.run (s : Server) : ServerOp → Server
  | ServerOp.Reload readFile => debounceCallback s readFile
  | ServerOp.Broadcast => broadcast s
  | ServerOp.Register id => register s id
  | ServerOp.Unregister id => unregister s id
  | ServerOp.Receive id => receive s id
  | ServerOp.Request _ => s

/-- The function `main` up to `server.New`: `initialRead` is the read that
feeds the allow-list (its failure is fatal), `firstRender` the read inside
the first call of `componentFn`. -/
def main (lib : Lib) (watchMode : Bool) (absPath baseDir : String)
    (initialRead firstRender : Option String) : Except String Server :=
  match initialRead with
  | none => Except.error "read error"
  | some initialContent =>
    let doc := lib.Parse initialContent
    let allowedImages := ExtractRelativeImages doc
    Except.ok (New (componentFn lib watchMode) baseDir allowedImages watchMode absPath firstRender)

/-! ### The request multiplexer (`net/http`)

`Start` registers the root handler on `http.NewServeMux()`. The multiplexer
cleans the path of every request that is not a `CONNECT` request and answers
with a redirect to the cleaned path when cleaning changed it. Paths are taken
without percent-encoding, so that `r.URL.Path` and its escaped form agree. -/

/-- The elements of a path: the pieces between the separators `sep`. -/
def splitOn (sep : Char) : List Char → List (List Char)
  | [] => [[]]
  | c :: cs =>
    if c = sep then [] :: splitOn sep cs
    else
      match splitOn sep cs with
      | [] => [[c]]
      | e :: es => (c :: e) :: es

/-- The loop of `path.Clean`, element by element: an empty element and `.` are
skipped, `..` removes the element written last (past the leading `..`
elements, of which there are `dotdot`, of a path that is not rooted), every
other element is written. -/
def cleanElems (rooted : Bool) : List (List Char) → List (List Char) → Nat → List (List Char)
  | [], out, _ => out
  | e :: es, out, dotdot =>
    if e = [] ∨ e = ['.'] then cleanElems rooted es out dotdot
    else if e = ['.', '.'] then
      if out.length > dotdot then cleanElems rooted es out.dropLast dotdot
      else if !rooted then cleanElems rooted es (out ++ [e]) (out.length + 1)
      else cleanElems rooted es out dotdot
    else cleanElems rooted es (out ++ [e]) dotdot

/-- `path.Clean(p)`. -/
def Clean (p : String) : String :=
  if p = "" then "."
  else
    let rooted := p.data.head? = some '/'
    let out := cleanElems rooted (splitOn '/' p.data) [] 0
    let body := String.mk (List.intercalate ['/'] out)
    if rooted then "/" ++ body else if out = [] then "." else body

/-- `cleanPath(p)` of `net/http`: the canonical path for `p`, with a trailing
slash kept. -/
def cleanPath (p : String) : String :=
  if p = "" then "/"
  else
    let p := if p.data.head? = some '/' then p else "/" ++ p
    let np := Clean p
    if p.data.getLast? = some '/' ∧ np ≠ "/" then
      if p.length = np.length + 1 ∧ HasPrefix p np then p else np ++ "/"
    else np

/-- What the server answers to a request. -/
inductive Response where
  | Redirect (location : String)
  | Root (outcome : Outcome)
  | ReloadStream
  deriving DecidableEq, Repr

/-- The patterns registered by `Start`: `/__reload` in watch mode, and `/`,
which matches every other path. -/
def dispatch (s : Server) (urlPath : String) : Response :=
  if s.watchMode && urlPath = "/__reload" then Response.ReloadStream
  else Response.Root (rootHandler s urlPath)

/-- The multiplexer built by `Start`, applied to a request with the given
method and path: `(*ServeMux).ServeHTTP`. -/
def serveMux (s : Server) (method urlPath : String) : Response :=
  if method = "CONNECT" then dispatch s urlPath
  else
    let path := cleanPath urlPath
    if path ≠ urlPath then Response.Redirect path else dispatch s path

/-- A `GET` request by a client that follows a redirect, as browsers do. -/
def getFollow (s : Server) (urlPath : String) : Response :=
  match serveMux s "GET" urlPath with
  | Response.Redirect location => serveMux s "GET" location
  | response => response

/-- Whether an operation is a run of the debounce callback. -/
def ServerOp.isReload : ServerOp → Bool
  | ServerOp.Reload _ => true
  | _ => false

/-- A server whose only interesting part is its allow-list, for examples. -/
def serverWithAllowList (allowedImages : GoMap) : Server :=
  New (fun _ => { written := "", failed := false }) "." allowedImages false "README.md" none

/-- Modelled from the spec: the page template `TemplatePage`, generated by `templ`
from a template that is not among the sources. The page served at `/` contains
the rendered document; this stand-in writes the title, the body verbatim and,
in watch mode, a reload script. It is used to evaluate examples only. -/
def examplePage (title body : String) (watchMode : Bool) : Component :=
  { written := "<html><head><title>" ++ title ++ "</title></head><body>" ++ body
      ++ (if watchMode then "<script src=\"/__reload\"></script>" else "") ++ "</body></html>"
    failed := false }

/-- A stand-in for the `gomarkdown` library, used to evaluate examples only:
a non-empty document is one paragraph of text. -/
def exampleLib : Lib :=
  { TemplatePage := examplePage
    Parse := fun md => if md = "" then Node.Container [] else Node.Container [Node.Leaf md]
    Render := fun doc =>
      match doc with
      | Node.Container [Node.Leaf text] => "<p>" ++ text ++ "</p>"
      | _ => "" }

/-- The server `main` builds, in watch mode, for a document that reads `hello`. -/
def exampleServer : Server :=
  New (componentFn exampleLib true) "/doc" (ExtractRelativeImages (exampleLib.Parse "hello"))
    true "/doc/README.md" (some "hello")

/-! ## The watcher of `internal/server/server.go`

`watch` is run as a discrete-event system. Its state holds the timers made by
`time.AfterFunc`, the goroutines sleeping after a rename or remove event, and
a log with one entry for every run of the timer callback (one re-render). -/

/-- A `*time.Timer` made by `time.AfterFunc`: when it is due, and whether it is
still armed (it is disarmed by `Stop` and by running). -/
structure Timer where
  deadline : Nat
  active : Bool
  deriving DecidableEq, Repr

/-- `(*time.Timer).Stop()`. -/
def Timer.Stop (t : Timer) : Timer :=
  { t with active := false }

/-- An `fsnotify.Event`: the time it is received and its `Op` bit mask. -/
structure Event where
  time : Nat
  Op : Nat
  deriving DecidableEq, Repr

/-- `fsnotify.Create`. -/
def Create : Nat := 1
/-- `fsnotify.Write`. -/
def Write : Nat := 2
/-- `fsnotify.Remove`. -/
def Remove : Nat := 4
/-- `fsnotify.Rename`. -/
def Rename : Nat := 8
/-- `fsnotify.Chmod`. -/
def Chmod : Nat := 16

/-- `event.Has(op)`: the bit `op` is set in `event.Op` (`op` is always one of the
single-bit constants above). -/
def Event.Has (e : Event) (op : Nat) : Bool :=
  e.Op &&& op != 0

/-- The state of `watch`: the variable `debounce` (`none` for `nil`), the timers
the variable no longer refers to, the wake-up times of the goroutines started
for rename and remove events, and the times at which the callback ran. -/
structure Watch where
  debounce : Option Timer
  dropped : List Timer
  sleepers : List Nat
  reloads : List Nat
  deriving DecidableEq, Repr

/-- The state when the event loop starts: `var debounce *time.Timer`. -/
def Watch.init : Watch :=
  { debounce := none, dropped := [], sleepers := [], reloads := [] }

/-- The closure `fire` of `watch`, called at time `now`: stop the timer
`debounce` refers to, if any, and make `debounce` a new timer due 50 ms later. -/
def fire (now : Nat) (w : Watch) : Watch :=
  let dropped :=
    match w.debounce with
    | some t => w.dropped ++ [t.Stop]
    | none => w.dropped
  { w with dropped := dropped, debounce := some { deadline := now + 50, active := true } }

/-- One iteration of the event loop for an event of `watcher.Events`. -/
def onEvent (w : Watch) (event : Event) : Watch :=
  let w1 := if event.Has Write || event.Has Create then fire event.time w else w
  if event.Has Rename || event.Has Remove then
    { w1 with sleepers := w1.sleepers ++ [event.time + 100] }
  else w1

/-- The due times of everything that is pending: armed timers and sleepers. -/
def Watch.pending (w : Watch) : List Nat :=
  ((w.dropped.filter (fun t => t.active)).map (fun t => t.deadline))
    ++ ((w.debounce.toList.filter (fun t => t.active)).map (fun t => t.deadline))
    ++ w.sleepers

/-- Disarm the first armed timer of a list that is due at `time`. -/
def runFirst (time : Nat) : List Timer → List Timer
  | [] => []
  | t :: ts =>
    if t.active && t.deadline = time then t.Stop :: ts else t :: runFirst time ts

/-- What happens at `time`, the earliest pending due time: an armed timer due
then runs its callback (the one `debounce` refers to first), otherwise a
sleeping goroutine wakes up and calls `fire`. -/
def Watch.occur (w : Watch) (time : Nat) : Watch :=
  match w.debounce with
  | some t =>
    if t.active && t.deadline = time then
      { w with debounce := some t.Stop, reloads := w.reloads ++ [time] }
    else if w.dropped.any (fun t => t.active && t.deadline = time) then
      { w with dropped := runFirst time w.dropped, reloads := w.reloads ++ [time] }
    else fire time { w with sleepers := w.sleepers.erase time }
  | none =>
    if w.dropped.any (fun t => t.active && t.deadline = time) then
      { w with dropped := runFirst time w.dropped, reloads := w.reloads ++ [time] }
    else fire time { w with sleepers := w.sleepers.erase time }

/-- Let time pass up to and including `limit` (without bound for `none`):
whatever is pending and due happens, earliest first. -/
def advanceFuel : Nat → Option Nat → Watch → Watch
  | 0, _, w => w
  | fuel + 1, limit, w =>
    match w.pending.min? with
    | none => w
    | some time =>
      if limit.all (fun l => time ≤ l) then advanceFuel fuel limit (w.occur time) else w

/-- A bound on the number of occurrences still possible: a sleeper wakes once
and arms one timer, an armed timer runs once. -/
def Watch.budget (w : Watch) : Nat :=
  (w.dropped.filter (fun t => t.active)).length
    + (w.debounce.toList.filter (fun t => t.active)).length + 2 * w.sleepers.length

/-- Let time pass up to and including `limit`. -/
def advance (limit : Option Nat) (w : Watch) : Watch :=
  advanceFuel w.budget limit w

/-- The event loop of `watch` on a finite stream of events: time passes up to
the moment an event is received, then the event is handled. -/
def watchLoop (w : Watch) : List Event → Watch
  | [] => w
  | event :: events => watchLoop (onEvent (advance (some event.time) w) event) events

/-- The run of `watch` on a stream of events, followed until nothing is pending. -/
def runWatch (events : List Event) : Watch :=
  advance none (watchLoop Watch.init events)

/-- The number of re-renders of a run. -/
def rerenders (events : List Event) : Nat :=
  (runWatch events).reloads.length

/-! ## Predicates used in the proofs -/

/-- Every stored value is `true` and no key is stored twice. -/
def GoMap.IsSet (m : GoMap) : Prop :=
  m.keys.Nodup ∧ ∀ k, m.get k = true ↔ k ∈ m.keys

/-- The effect of one entering visit of an image with destination `d`. -/
def addImage (m : GoMap) (d : String) : GoMap :=
  if isAbsoluteURL d then m else m.set d true

/-- No timer other than the one `debounce` refers to is armed, and no goroutine
sleeps. -/
def Watch.Quiet (w : Watch) : Prop :=
  (∀ t ∈ w.dropped, t.active = false) ∧ w.sleepers = []

/-- A write or create event that is not also a rename or remove event. -/
def Event.isWriteOrCreate (e : Event) : Bool :=
  (e.Has Write || e.Has Create) && !(e.Has Rename || e.Has Remove)

/-! ## Lemmas on `GoMap` -/

theorem GoMap.get_set (m : GoMap) (k k' : String) (v : Bool) :
    (m.set k v).get k' = if k = k' then v else m.get k' := by
  induction m with
  | nil => simp [GoMap.set, GoMap.get]
  | cons p t ih =>
    obtain ⟨a, b⟩ := p
    by_cases h : a = k
    · subst h
      by_cases h' : a = k' <;> simp [GoMap.set, GoMap.get, h']
    · by_cases h' : a = k'
      · subst h'
        have : ¬ k = a := fun e => h e.symm
        simp [GoMap.set, GoMap.get, h, this]
      · simp [GoMap.set, GoMap.get, h, h', ih]

theorem GoMap.keys_set (m : GoMap) (k : String) (v : Bool) :
    (m.set k v).keys = if k ∈ m.keys then m.keys else m.keys ++ [k] := by
  induction m with
  | nil => simp [GoMap.set, GoMap.keys]
  | cons p t ih =>
    obtain ⟨a, b⟩ := p
    by_cases h : a = k
    · subst h
      simp [GoMap.set, GoMap.keys]
    · have hk : ¬ k = a := fun e => h e.symm
      simp only [GoMap.keys] at ih
      by_cases hm : k ∈ List.map Prod.fst t
      · simp [GoMap.set, GoMap.keys, h, hk, hm, ih]
      · simp [GoMap.set, GoMap.keys, h, hk, hm, ih]

theorem GoMap.isSet_nil : GoMap.IsSet [] := by
  simp [GoMap.IsSet, GoMap.keys, GoMap.get]

theorem GoMap.isSet_set (m : GoMap) (k : String) (h : m.IsSet) : (m.set k true).IsSet := by
  obtain ⟨hn, hg⟩ := h
  refine ⟨?_, ?_⟩
  · rw [GoMap.keys_set]
    by_cases hm : k ∈ m.keys
    · simpa [hm] using hn
    · simp only [hm, if_false]
      exact List.Nodup.append hn (List.nodup_singleton k) (by simpa using hm)
  · intro k'
    rw [GoMap.get_set, GoMap.keys_set]
    by_cases hk : k = k'
    · subst hk
      by_cases hm : k ∈ m.keys <;> simp [hm]
    · have hk' : ¬ k' = k := fun e => hk e.symm
      by_cases hm : k ∈ m.keys <;> simp [hm, hk, hk', hg]

theorem isSet_foldl_addImage (ds : List String) (m : GoMap) (h : m.IsSet) :
    (ds.foldl addImage m).IsSet := by
  induction ds generalizing m with
  | nil => simpa using h
  | cons d ds ih =>
    simp only [List.foldl_cons]
    apply ih
    unfold addImage
    split
    · exact h
    · exact GoMap.isSet_set m d h

theorem keys_foldl_addImage (ds : List String) (m : GoMap) (k : String) :
    k ∈ (ds.foldl addImage m).keys ↔ k ∈ m.keys ∨ (k ∈ ds ∧ isAbsoluteURL k = false) := by
  induction ds generalizing m with
  | nil => simp
  | cons d ds ih =>
    simp only [List.foldl_cons, ih, List.mem_cons]
    unfold addImage
    by_cases ha : isAbsoluteURL d = true
    · simp only [ha, if_true]
      constructor
      · rintro (h | ⟨h, h'⟩)
        · exact Or.inl h
        · exact Or.inr ⟨Or.inr h, h'⟩
      · rintro (h | ⟨h | h, h'⟩)
        · exact Or.inl h
        · subst h
          rw [ha] at h'
          exact absurd h' (by decide)
        · exact Or.inr ⟨h, h'⟩
    · rw [if_neg ha, GoMap.keys_set]
      have ha' : isAbsoluteURL d = false := by simpa using ha
      by_cases hm : d ∈ m.keys
      · rw [if_pos hm]
        constructor
        · rintro (h | ⟨h, h'⟩)
          · exact Or.inl h
          · exact Or.inr ⟨Or.inr h, h'⟩
        · rintro (h | ⟨h | h, h'⟩)
          · exact Or.inl h
          · subst h
            exact Or.inl hm
          · exact Or.inr ⟨h, h'⟩
      · rw [if_neg hm]
        simp only [List.mem_append, List.mem_singleton]
        constructor
        · rintro ((h | h) | ⟨h, h'⟩)
          · exact Or.inl h
          · subst h
            exact Or.inr ⟨Or.inl rfl, ha'⟩
          · exact Or.inr ⟨Or.inr h, h'⟩
        · rintro (h | ⟨h | h, h'⟩)
          · exact Or.inl (Or.inl h)
          · exact Or.inl (Or.inr h)
          · exact Or.inr ⟨h, h'⟩

mutual
theorem walk_extractVisit (n : Node) (m : GoMap) :
    Walk extractVisit n m = (WalkStatus.GoToNext, (imageDestinations n).foldl addImage m) := by
  cases n with
  | Leaf l => simp [Walk, extractVisit, imageDestinations]
  | Container cs =>
    simp [Walk, walkContainer, extractVisit, imageDestinations, walkChildren_extractVisit cs m]
  | Image d cs =>
    by_cases ha : isAbsoluteURL d = true
    · simp [Walk, walkContainer, extractVisit, imageDestinations, addImage, ha,
        walkChildren_extractVisit cs m]
    · simp [Walk, walkContainer, extractVisit, imageDestinations, addImage, ha,
        walkChildren_extractVisit cs (m.set d true)]
theorem walkChildren_extractVisit (ns : List Node) (m : GoMap) :
    WalkChildren extractVisit ns m
      = (WalkStatus.GoToNext, (imageDestinationsList ns).foldl addImage m) := by
  cases ns with
  | nil => simp [WalkChildren, imageDestinationsList]
  | cons n ns =>
    simp [WalkChildren, imageDestinationsList, walk_extractVisit n m,
      walkChildren_extractVisit ns ((imageDestinations n).foldl addImage m)]
end

/-! ## Claims on `internal/markdown/markdown.go` -/

/-- C1: for every document tree, `ExtractRelativeImages` returns exactly the set
of image destinations of the tree that start with none of `http://`,
`https://`, `//`: a string reads as `true` in the returned map exactly when it
is such a destination (so a destination with one of the three prefixes never
is a member, and every other one is, verbatim), the members are exactly the
stored keys, and no key is stored twice however often a destination occurs. -/
theorem extractRelativeImages_exact (doc : Node) :
    (∀ d : String, (ExtractRelativeImages doc).get d = true ↔
        (d ∈ imageDestinations doc ∧ HasPrefix d "http://" = false ∧
          HasPrefix d "https://" = false ∧ HasPrefix d "//" = false)) ∧
    (∀ d : String, d ∈ (ExtractRelativeImages doc).keys ↔
        (ExtractRelativeImages doc).get d = true) ∧
    (ExtractRelativeImages doc).keys.Nodup := by
  have hw : ExtractRelativeImages doc = (imageDestinations doc).foldl addImage [] := by
    simp [ExtractRelativeImages, walk_extractVisit]
  have hs := isSet_foldl_addImage (imageDestinations doc) [] GoMap.isSet_nil
  rw [hw]
  refine ⟨?_, ?_, hs.1⟩
  · intro d
    rw [hs.2 d, keys_foldl_addImage]
    simp [GoMap.keys, isAbsoluteURL, and_assoc]
  · intro d
    exact (hs.2 d).symm


/-! ## Lemmas on strings -/

theorem trimPrefix_slash (rest : String) : TrimPrefix ("/" ++ rest) "/" = rest := by
  have h : HasPrefix ("/" ++ rest) "/" = true := by
    simp [HasPrefix, String.data_append]
  simp [TrimPrefix, h, String.data_append]

/-! ## Lemmas on the server operations -/

theorem run_allowedImages (s : Server) (op : ServerOp) :
    (op.run s).allowedImages = s.allowedImages := by
  cases op <;> rfl

theorem run_componentFn (s : Server) (op : ServerOp) :
    (op.run s).componentFn = s.componentFn := by
  cases op <;> rfl

theorem run_html (s : Server) (op : ServerOp) (h : op.isReload = false) :
    (op.run s).html = s.html := by
  cases op <;> first | rfl | simp [ServerOp.isReload] at h

theorem foldl_run_allowedImages (ops : List ServerOp) (s : Server) :
    (ops.foldl ServerOp.run s).allowedImages = s.allowedImages := by
  induction ops generalizing s with
  | nil => rfl
  | cons op ops ih => simp only [List.foldl_cons, ih, run_allowedImages]

theorem foldl_run_componentFn (ops : List ServerOp) (s : Server) :
    (ops.foldl ServerOp.run s).componentFn = s.componentFn := by
  induction ops generalizing s with
  | nil => rfl
  | cons op ops ih => simp only [List.foldl_cons, ih, run_componentFn]

theorem foldl_run_html (ops : List ServerOp) (s : Server)
    (h : ∀ op ∈ ops, op.isReload = false) : (ops.foldl ServerOp.run s).html = s.html := by
  induction ops generalizing s with
  | nil => rfl
  | cons op ops ih =>
    simp only [List.foldl_cons]
    rw [ih _ (fun o ho => h o (List.mem_cons_of_mem _ ho)), run_html s op (h op (List.mem_cons_self _ _))]

theorem rootHandler_root (s : Server) : rootHandler s "/" = Outcome.WriteHtml s.html := by
  simp [rootHandler]

theorem rootHandler_congr (s s' : Server) (urlPath : String) (h : urlPath ≠ "/")
    (ha : s'.allowedImages = s.allowedImages) : rootHandler s' urlPath = rootHandler s urlPath := by
  simp [rootHandler, h, ha]

/-! ## Claims on the root handler -/

/-- C2: for every server state (hence every allow-list) and every request path
other than `/`: the root handler hands the request to the file server when the
path without its leading `/`, or that path with `./` in front, reads as `true`
in the allow-list, and answers 404 (the file server is not invoked) in every
other case; for a path `/rest` the stripped path is `rest`. -/
theorem rootHandler_allowList (s : Server) (urlPath : String) (h : urlPath ≠ "/") :
    ((s.allowedImages.get (TrimPrefix urlPath "/") = true ∨
        s.allowedImages.get ("./" ++ TrimPrefix urlPath "/") = true) →
      rootHandler s urlPath = Outcome.FileServer urlPath) ∧
    (¬ (s.allowedImages.get (TrimPrefix urlPath "/") = true ∨
        s.allowedImages.get ("./" ++ TrimPrefix urlPath "/") = true) →
      rootHandler s urlPath = Outcome.NotFound) ∧
    (rootHandler s urlPath = Outcome.FileServer urlPath ↔
      (s.allowedImages.get (TrimPrefix urlPath "/") = true ∨
        s.allowedImages.get ("./" ++ TrimPrefix urlPath "/") = true)) ∧
    (∀ rest : String, urlPath = "/" ++ rest → TrimPrefix urlPath "/" = rest) := by
  refine ⟨?_, ?_, ?_, ?_⟩
  · intro hm
    have : (s.allowedImages.get (TrimPrefix urlPath "/") ||
        s.allowedImages.get ("./" ++ TrimPrefix urlPath "/")) = true := by
      simpa [Bool.or_eq_true] using hm
    simp [rootHandler, h, this]
  · intro hm
    have : (s.allowedImages.get (TrimPrefix urlPath "/") ||
        s.allowedImages.get ("./" ++ TrimPrefix urlPath "/")) = false := by
      cases h1 : s.allowedImages.get (TrimPrefix urlPath "/") <;>
        cases h2 : s.allowedImages.get ("./" ++ TrimPrefix urlPath "/") <;>
        simp [h1, h2] at hm ⊢
    simp [rootHandler, h, this]
  · by_cases hm : (s.allowedImages.get (TrimPrefix urlPath "/") ||
        s.allowedImages.get ("./" ++ TrimPrefix urlPath "/")) = true
    · have hm' := hm
      rw [Bool.or_eq_true] at hm'
      simp [rootHandler, h, hm, hm']
    · have hm' := hm
      rw [Bool.or_eq_true] at hm'
      simp only [Bool.not_eq_true] at hm
      simp [rootHandler, h, hm, hm']
  · rintro rest rfl
    exact trimPrefix_slash rest

/-- Witness of C2: the allow-list `{"./img/a.png"}` and the request `/img/a.png`. -/
theorem rootHandler_allowList_witness :
    rootHandler (serverWithAllowList [("./img/a.png", true)]) "/img/a.png"
        = Outcome.FileServer "/img/a.png" ∧
      TrimPrefix "/img/a.png" "/" = "img/a.png" :=
  ⟨(rootHandler_allowList (serverWithAllowList [("./img/a.png", true)]) "/img/a.png"
      (by decide)).1 (by decide),
    (rootHandler_allowList (serverWithAllowList [("./img/a.png", true)]) "/img/a.png"
      (by decide)).2.2.2 "img/a.png" (by decide)⟩

/-- C3: on a server whose allow-list has the single member `img/a.png`, a `GET`
request for `/img/a.png` is passed by the allow-list check of the root handler
to the file server; a `GET` request for `/./img/a.png` is redirected by the
multiplexer to `/img/a.png`, where the same check passes it; a `GET` request
for `/img/b.png` is answered 404. -/
theorem allowList_example_requests (s : Server)
    (h : ∀ k : String, s.allowedImages.get k = true ↔ k = "img/a.png") :
    getFollow s "/img/a.png" = Response.Root (Outcome.FileServer "/img/a.png") ∧
      getFollow s "/./img/a.png" = Response.Root (Outcome.FileServer "/img/a.png") ∧
      getFollow s "/img/b.png" = Response.Root Outcome.NotFound ∧
      serveMux s "GET" "/img/a.png" = Response.Root (Outcome.FileServer "/img/a.png") ∧
      serveMux s "GET" "/./img/a.png" = Response.Redirect "/img/a.png" := by
  have t1 : TrimPrefix "/img/a.png" "/" = "img/a.png" := by decide
  have t2 : TrimPrefix "/img/b.png" "/" = "img/b.png" := by decide
  have g1 : s.allowedImages.get "img/a.png" = true := (h _).2 rfl
  have g2 : s.allowedImages.get "img/b.png" = false := by
    rw [← Bool.not_eq_true, h]; decide
  have g3 : s.allowedImages.get "./img/b.png" = false := by
    rw [← Bool.not_eq_true, h]; decide
  have e1 : ("/img/a.png" : String) ≠ "/" := by decide
  have e2 : ("/img/b.png" : String) ≠ "/" := by decide
  have c2 : ("./" ++ "img/b.png" : String) = "./img/b.png" := by decide
  have r1 : rootHandler s "/img/a.png" = Outcome.FileServer "/img/a.png" := by
    simp [rootHandler, e1, t1, g1]
  have r2 : rootHandler s "/img/b.png" = Outcome.NotFound := by
    simp only [rootHandler, if_neg e2, t2, c2, g2, g3]
    rfl
  have p1 : cleanPath "/img/a.png" = "/img/a.png" := by decide
  have p2 : cleanPath "/img/b.png" = "/img/b.png" := by decide
  have p3 : cleanPath "/./img/a.png" = "/img/a.png" := by decide
  have n1 : ¬ ("/img/a.png" : String) = "/__reload" := by decide
  have n2 : ¬ ("/img/b.png" : String) = "/__reload" := by decide
  have n3 : ¬ ("/img/a.png" : String) = "/./img/a.png" := by decide
  have nc : ¬ ("GET" : String) = "CONNECT" := by decide
  have m1 : serveMux s "GET" "/img/a.png" = Response.Root (Outcome.FileServer "/img/a.png") := by
    simp [serveMux, dispatch, nc, p1, n1, r1]
  have m2 : serveMux s "GET" "/img/b.png" = Response.Root Outcome.NotFound := by
    simp [serveMux, dispatch, nc, p2, n2, r2]
  have m3 : serveMux s "GET" "/./img/a.png" = Response.Redirect "/img/a.png" := by
    simp [serveMux, nc, p3, n3]
  refine ⟨?_, ?_, ?_, m1, m3⟩
  · simp only [getFollow, m1]
  · simp only [getFollow, m3, m1]
  · simp only [getFollow, m2]

/-- Witness of C3: the server with allow-list `{"img/a.png"}`. -/
theorem allowList_example_requests_witness :
    getFollow (serverWithAllowList [("img/a.png", true)]) "/img/a.png"
        = Response.Root (Outcome.FileServer "/img/a.png") ∧
      getFollow (serverWithAllowList [("img/a.png", true)]) "/./img/a.png"
        = Response.Root (Outcome.FileServer "/img/a.png") ∧
      getFollow (serverWithAllowList [("img/a.png", true)]) "/img/b.png"
        = Response.Root Outcome.NotFound :=
  have h := allowList_example_requests (serverWithAllowList [("img/a.png", true)]) (by
    intro k
    by_cases hk : k = "img/a.png"
    · subst hk
      simp [serverWithAllowList, New, GoMap.get]
    · have hk' : ¬ "img/a.png" = k := fun e => hk e.symm
      simp [serverWithAllowList, New, GoMap.get, hk, hk'])
  ⟨h.1, h.2.1, h.2.2.1⟩

/-! ## Claims on the broadcast hub -/

theorem trySend_cap_one (ch : Chan) (h : ch.cap = 1) :
    ch.trySend.id = ch.id ∧ ch.trySend.cap = 1 ∧
      (ch.len = 0 → ch.trySend.len = 1) ∧ (ch.len = 1 → ch.trySend.len = 1) := by
  unfold Chan.trySend
  rw [h]
  by_cases hl : ch.len < 1
  · rw [if_pos hl]
    refine ⟨rfl, rfl, fun h0 => ?_, fun h1 => ?_⟩
    · simp [h0]
    · omega
  · rw [if_neg hl]
    refine ⟨rfl, h, fun h0 => ?_, fun h1 => h1⟩
    omega

/-- C4: with every subscriber channel a buffer of capacity 1, `broadcast`
leaves a server without subscribers unchanged; in general it leaves every
field other than the registry unchanged, keeps the registered channels (same
identities, same order, same capacities), and a channel whose buffer was
empty holds one token afterwards, as does a channel whose buffer was full. -/
theorem broadcast_capacity_one (s : Server) (h : ∀ ch ∈ s.sseClients, ch.cap = 1) :
    (s.sseClients = [] → broadcast s = s) ∧
    (broadcast s).sseClients.map Chan.id = s.sseClients.map Chan.id ∧
    (broadcast s).sseClients.length = s.sseClients.length ∧
    List.Forall₂ (fun ch ch' => ch'.id = ch.id ∧ ch'.cap = 1 ∧
        (ch.len = 0 → ch'.len = 1) ∧ (ch.len = 1 → ch'.len = 1))
      s.sseClients (broadcast s).sseClients ∧
    (broadcast s).html = s.html ∧ (broadcast s).allowedImages = s.allowedImages := by
  refine ⟨?_, ?_, ?_, ?_, rfl, rfl⟩
  · intro he
    cases s
    simp only [broadcast] at he ⊢
    subst he
    rfl
  · simp only [broadcast, List.map_map]
    apply List.map_congr_left
    intro ch hch
    exact (trySend_cap_one ch (h ch hch)).1
  · simp [broadcast]
  · simp only [broadcast]
    generalize s.sseClients = l at h
    induction l with
    | nil => exact List.Forall₂.nil
    | cons ch t ih =>
      have hc := trySend_cap_one ch (h ch (List.mem_cons_self _ _))
      exact List.Forall₂.cons hc (ih (fun c hc' => h c (List.mem_cons_of_mem _ hc')))

/-- Witness of C4: two subscribers, the first with an empty buffer, the second
with a full one. -/
theorem broadcast_capacity_one_witness :
    ((broadcast (receive (broadcast (register (register (serverWithAllowList []) 7) 8)) 7)
        ).sseClients.map Chan.id
      = (receive (broadcast (register (register (serverWithAllowList []) 7) 8)) 7
        ).sseClients.map Chan.id) ∧
    (broadcast (receive (broadcast (register (register (serverWithAllowList []) 7) 8)) 7)
        ).sseClients = [⟨7, 1, 1⟩, ⟨8, 1, 1⟩] ∧
    (receive (broadcast (register (register (serverWithAllowList []) 7) 8)) 7).sseClients
      = [⟨7, 1, 0⟩, ⟨8, 1, 1⟩] :=
  ⟨(broadcast_capacity_one
      (receive (broadcast (register (register (serverWithAllowList []) 7) 8)) 7)
      (by decide)).2.1, by decide, by decide⟩

/-! ## Claims on `FindReadme` -/

theorem toLower_ne_empty (lower : Char → Char) (s : String)
    (h : ToLower lower s = "readme.md") : s ≠ "" := by
  rintro rfl
  have hd := congrArg String.data h
  simp [ToLower] at hd

theorem find?_split {α : Type} (p : α → Bool) (l : List α) (a : α) (h : l.find? p = some a) :
    ∃ before after, l = before ++ a :: after ∧ ∀ x ∈ before, ¬ p x = true := by
  induction l with
  | nil => simp at h
  | cons b t ih =>
    by_cases hb : p b = true
    · simp only [List.find?, hb, Option.some.injEq] at h
      subst h
      exact ⟨[], t, rfl, by simp⟩
    · have hb' : p b = false := by simpa using hb
      simp only [List.find?, hb'] at h
      obtain ⟨before, after, hs, hall⟩ := ih h
      refine ⟨b :: before, after, by simp [hs], ?_⟩
      intro x hx
      rcases List.mem_cons.1 hx with rfl | hx
      · exact hb
      · exact hall x hx

theorem findReadmeLoop_eq (lower : Char → Char) (entries : List DirEntry) :
    findReadmeLoop lower entries
      = match entries.find? (isReadme lower) with
        | some e => e.Name
        | none => "" := by
  induction entries with
  | nil => rfl
  | cons e t ih =>
    cases hd : e.IsDir
    · by_cases hn : ToLower lower e.Name = "readme.md"
      · simp [findReadmeLoop, List.find?, isReadme, hd, hn]
      · simp [findReadmeLoop, List.find?, isReadme, hd, hn, ih]
    · simp [findReadmeLoop, List.find?, isReadme, hd, ih]

/-- C8: `FindReadme` returns the name, unchanged, of the first entry of the
listing that is not a directory and whose lower-cased name is `readme.md`
(every entry before it is a directory or has another lower-cased name), and
it returns `""` exactly when the listing cannot be read or has no such entry;
a directory is never the entry returned. -/
theorem findReadme_first_match (lower : Char → Char) (readDir : Option (List DirEntry)) :
    (∀ entries, readDir = some entries →
      ∀ e, entries.find? (isReadme lower) = some e →
        FindReadme lower readDir = e.Name ∧ e.IsDir = false ∧
          ToLower lower e.Name = "readme.md" ∧
          ∃ before after, entries = before ++ e :: after ∧
            ∀ x ∈ before, x.IsDir = true ∨ ToLower lower x.Name ≠ "readme.md") ∧
    (FindReadme lower readDir = "" ↔
      (readDir = none ∨
        ∃ entries, readDir = some entries ∧
          ∀ x ∈ entries, x.IsDir = true ∨ ToLower lower x.Name ≠ "readme.md")) := by
  have key : ∀ x : DirEntry, isReadme lower x = true ↔
      (x.IsDir = false ∧ ToLower lower x.Name = "readme.md") := by
    intro x
    simp [isReadme]
  have key' : ∀ x : DirEntry, ¬ isReadme lower x = true ↔
      (x.IsDir = true ∨ ToLower lower x.Name ≠ "readme.md") := by
    intro x
    rw [key]
    cases x.IsDir <;> simp
  constructor
  · rintro entries rfl e he
    have hp : isReadme lower e = true := List.find?_some he
    refine ⟨?_, ((key e).1 hp).1, ((key e).1 hp).2, ?_⟩
    · simp [FindReadme, findReadmeLoop_eq, he]
    · obtain ⟨before, after, hsplit, hb⟩ := find?_split _ _ _ he
      exact ⟨before, after, hsplit, fun x hx => (key' x).1 (hb x hx)⟩
  · cases readDir with
    | none => simp [FindReadme]
    | some entries =>
      simp only [FindReadme, findReadmeLoop_eq, false_or, Option.some.injEq, exists_eq_left',
        reduceCtorEq]
      cases hf : entries.find? (isReadme lower) with
      | none =>
        simp only [true_iff]
        intro x hx
        rw [List.find?_eq_none] at hf
        exact (key' x).1 (hf x hx)
      | some e =>
        have hp : isReadme lower e = true := List.find?_some hf
        have hmem : e ∈ entries := List.mem_of_find?_eq_some hf
        constructor
        · intro hempty
          exact absurd hempty (toLower_ne_empty lower e.Name ((key e).1 hp).2)
        · intro hall
          exact absurd hp ((key' e).2 (hall e hmem))


/-- Witness of C8: a directory named `README.md` is skipped and the first file
whose lower-cased name is `readme.md` is returned with its own casing. -/
theorem findReadme_first_match_witness :
    FindReadme asciiLower
        (some [⟨"README.md", true⟩, ⟨"notes.txt", false⟩, ⟨"ReadMe.MD", false⟩,
          ⟨"readme.md", false⟩])
      = "ReadMe.MD" :=
  ((findReadme_first_match asciiLower
      (some [⟨"README.md", true⟩, ⟨"notes.txt", false⟩, ⟨"ReadMe.MD", false⟩,
        ⟨"readme.md", false⟩])).1 _ rfl ⟨"ReadMe.MD", false⟩ (by decide)).1

/-! ## Claims on the render cache -/

theorem debounceCallback_html (s : Server) (readFile : Option String) :
    (debounceCallback s readFile).html = render (s.componentFn readFile) := rfl

theorem debounceCallback_componentFn (s : Server) (readFile : Option String) :
    (debounceCallback s readFile).componentFn = s.componentFn := rfl

/-- C9: the body `GET /` writes is the rendering made by the most recent call
of `componentFn`: after `New`, and after a run of the debounce callback
(whatever happened before it), for as long as no further run of the callback
takes place; the server state before that call has no influence on it. -/
theorem root_serves_latest_render :
    (∀ (fn : componentFunc) (baseDir : String) (allowed : GoMap) (watchMode : Bool)
        (filePath : String) (readFile : Option String) (later : List ServerOp),
        (∀ op ∈ later, op.isReload = false) →
        rootHandler (later.foldl ServerOp.run (New fn baseDir allowed watchMode filePath readFile))
            "/"
          = Outcome.WriteHtml (render (fn readFile))) ∧
    (∀ (s : Server) (earlier later : List ServerOp) (readFile : Option String),
        (∀ op ∈ later, op.isReload = false) →
        rootHandler
            (later.foldl ServerOp.run
              (debounceCallback (earlier.foldl ServerOp.run s) readFile)) "/"
          = Outcome.WriteHtml (render (s.componentFn readFile))) := by
  constructor
  · intro fn baseDir allowed watchMode filePath readFile later h
    rw [rootHandler_root, foldl_run_html _ _ h]
    rfl
  · intro s earlier later readFile h
    rw [rootHandler_root, foldl_run_html _ _ h, debounceCallback_html, foldl_run_componentFn]

/-- Witness of C9: two reloads of the example server, the second one followed
by a subscription, a broadcast and a request. -/
theorem root_serves_latest_render_witness :
    rootHandler
        ([ServerOp.Register 1, ServerOp.Broadcast, ServerOp.Request "/x.png"].foldl ServerOp.run
          (debounceCallback ([ServerOp.Reload (some "one")].foldl ServerOp.run exampleServer)
            (some "two"))) "/"
      = Outcome.WriteHtml (render (exampleServer.componentFn (some "two"))) :=
  root_serves_latest_render.2 exampleServer [ServerOp.Reload (some "one")]
    [ServerOp.Register 1, ServerOp.Broadcast, ServerOp.Request "/x.png"] (some "two")
    (by decide)

/-- C5, as stated, fails: the server built by `main` for a document reading
`hello` serves another page at `/` after a debounce-timer expiry whose read
of the document fails. -/
theorem reload_read_failure_changes_page :
    ∃ s : Server,
      main exampleLib true "/doc/README.md" "/doc" (some "hello") (some "hello") = Except.ok s ∧
      rootHandler (debounceCallback s none) "/" ≠ rootHandler s "/" :=
  ⟨exampleServer, rfl, by decide⟩

/-- C5, amended: after a debounce-timer expiry whose read of the document fails
the server goes on serving (the callback returns a server state with the same
allow-list and the same subscribers), and `GET /` returns the bytes it
returned before exactly when the snapshot cached before already was the
rendering of the page with an empty body. -/
theorem reload_read_failure_same_page_iff (lib : Lib) (watchMode : Bool) (s : Server)
    (h : s.componentFn = componentFn lib watchMode) :
    (rootHandler (debounceCallback s none) "/" = rootHandler s "/" ↔
      s.html = render (lib.TemplatePage "Markdown" "" watchMode)) ∧
    (debounceCallback s none).allowedImages = s.allowedImages ∧
    (debounceCallback s none).sseClients.map Chan.id = s.sseClients.map Chan.id := by
  refine ⟨?_, rfl, ?_⟩
  · rw [rootHandler_root, rootHandler_root, debounceCallback_html, h]
    simp only [componentFn, Outcome.WriteHtml.injEq]
    exact eq_comm
  · simp only [debounceCallback, broadcast, List.map_map]
    apply List.map_congr_left
    intro ch _
    simp only [Function.comp, Chan.trySend]
    split <;> rfl

/-- Witness of the amended C5: the example server, whose cached snapshot is not
the empty page. -/
theorem reload_read_failure_same_page_iff_witness :
    (rootHandler (debounceCallback exampleServer none) "/" = rootHandler exampleServer "/" ↔
      exampleServer.html = render (exampleLib.TemplatePage "Markdown" "" true)) ∧
    exampleServer.html ≠ render (exampleLib.TemplatePage "Markdown" "" true) :=
  ⟨(reload_read_failure_same_page_iff exampleLib true exampleServer rfl).1, by decide⟩

/-- C6: when the read of the document fails, `componentFn` returns the page
template with an empty body, and the debounce callback puts the rendering of
that component in the cache whatever snapshot was cached before, so that
`GET /` then returns the empty-document page. -/
theorem reload_read_failure_empty_page (lib : Lib) (watchMode : Bool) (s : Server)
    (h : s.componentFn = componentFn lib watchMode) :
    componentFn lib watchMode none = lib.TemplatePage "Markdown" "" watchMode ∧
    (debounceCallback s none).html = render (lib.TemplatePage "Markdown" "" watchMode) ∧
    (∀ previous : String,
      rootHandler (debounceCallback { s with html := previous } none) "/"
        = Outcome.WriteHtml (render (lib.TemplatePage "Markdown" "" watchMode))) := by
  refine ⟨rfl, ?_, ?_⟩
  · rw [debounceCallback_html, h]
    rfl
  · intro previous
    rw [rootHandler_root, debounceCallback_html]
    show Outcome.WriteHtml (render (s.componentFn none)) = _
    rw [h]
    rfl

/-- Witness of C6: the example server loses its `hello` page. -/
theorem reload_read_failure_empty_page_witness :
    exampleServer.html
        = "<html><head><title>Markdown</title></head><body><p>hello</p><script src=\"/__reload\"></script></body></html>" ∧
      rootHandler (debounceCallback exampleServer none) "/"
        = Outcome.WriteHtml
            "<html><head><title>Markdown</title></head><body><script src=\"/__reload\"></script></body></html>" := by
  refine ⟨by decide, ?_⟩
  have h := (reload_read_failure_empty_page exampleLib true exampleServer rfl).2.2
    exampleServer.html
  rw [show ({ exampleServer with html := exampleServer.html } : Server) = exampleServer from rfl]
    at h
  rw [h]
  decide

/-! ## Claims on the allow-list -/

/-- C10: the allow-list is the one computed by `main` from the first read of the
document, and no operation that runs after `New` (re-render on timer expiry,
broadcast, registration, removal and reception by a subscriber, a request)
changes it; so every request other than `/` is answered after these
operations as it was before, and a path answered 404 stays answered 404 after
a re-render of an edited document. -/
theorem allowList_immutable :
    (∀ (lib : Lib) (watchMode : Bool) (absPath baseDir content : String)
        (firstRender : Option String),
        ∃ s, main lib watchMode absPath baseDir (some content) firstRender = Except.ok s ∧
          s.allowedImages = ExtractRelativeImages (lib.Parse content)) ∧
    (∀ (s : Server) (ops : List ServerOp),
        (ops.foldl ServerOp.run s).allowedImages = s.allowedImages) ∧
    (∀ (s : Server) (ops : List ServerOp) (urlPath : String), urlPath ≠ "/" →
        rootHandler (ops.foldl ServerOp.run s) urlPath = rootHandler s urlPath) ∧
    (∀ (s : Server) (edited : Option String) (urlPath : String), urlPath ≠ "/" →
        rootHandler s urlPath = Outcome.NotFound →
        rootHandler (debounceCallback s edited) urlPath = Outcome.NotFound) := by
  refine ⟨?_, ?_, ?_, ?_⟩
  · intro lib watchMode absPath baseDir content firstRender
    exact ⟨_, rfl, rfl⟩
  · intro s ops
    exact foldl_run_allowedImages ops s
  · intro s ops urlPath h
    exact rootHandler_congr s _ urlPath h (foldl_run_allowedImages ops s)
  · intro s edited urlPath h hn
    rw [rootHandler_congr s (debounceCallback s edited) urlPath h rfl]
    exact hn

/-- Witness of C10: the example server's document is edited to refer to the
image `new.png`; the request for `/new.png` is answered 404 before and after
the re-render. -/
theorem allowList_immutable_witness :
    rootHandler exampleServer "/new.png" = Outcome.NotFound ∧
      rootHandler (debounceCallback exampleServer (some "![new](new.png)")) "/new.png"
        = Outcome.NotFound :=
  ⟨by decide,
    allowList_immutable.2.2.2 exampleServer (some "![new](new.png)") "/new.png" (by decide)
      (by decide)⟩

/-! ## Lemmas on the watcher -/

theorem filter_active_nil (l : List Timer) (h : ∀ t ∈ l, t.active = false) :
    l.filter (fun t => t.active) = [] := by
  induction l with
  | nil => rfl
  | cons a t ih =>
    have ha := h a (List.mem_cons_self _ _)
    simp [List.filter, ha, ih (fun x hx => h x (List.mem_cons_of_mem _ hx))]

theorem advance_idle (limit : Option Nat) (w : Watch) (hq : w.Quiet)
    (hd : ∀ t, w.debounce = some t → t.active = false) : advance limit w = w := by
  have hb : w.budget = 0 := by
    unfold Watch.budget
    rw [filter_active_nil _ hq.1, hq.2]
    cases hdb : w.debounce with
    | none => simp
    | some t => simp [hd t hdb]
  simp [advance, hb, advanceFuel]

theorem advance_armed_early (l : Nat) (w : Watch) (d : Nat) (hq : w.Quiet)
    (hd : w.debounce = some { deadline := d, active := true }) (hl : l < d) :
    advance (some l) w = w := by
  have hb : w.budget = 1 := by
    unfold Watch.budget
    rw [filter_active_nil _ hq.1, hq.2, hd]
    simp
  have hp : w.pending = [d] := by
    unfold Watch.pending
    rw [filter_active_nil _ hq.1, hq.2, hd]
    simp
  have hm : ([d] : List Nat).min? = some d := rfl
  have : ¬ d ≤ l := by omega
  simp [advance, hb, advanceFuel, hp, hm, this]

theorem advance_armed_due (limit : Option Nat) (w : Watch) (d : Nat) (hq : w.Quiet)
    (hd : w.debounce = some { deadline := d, active := true })
    (hl : ∀ l, limit = some l → d ≤ l) :
    advance limit w
      = { w with debounce := some { deadline := d, active := false },
                 reloads := w.reloads ++ [d] } := by
  have hb : w.budget = 1 := by
    unfold Watch.budget
    rw [filter_active_nil _ hq.1, hq.2, hd]
    simp
  have hp : w.pending = [d] := by
    unfold Watch.pending
    rw [filter_active_nil _ hq.1, hq.2, hd]
    simp
  have hm : ([d] : List Nat).min? = some d := rfl
  have hall : limit.all (fun l => decide (d ≤ l)) = true := by
    cases limit with
    | none => rfl
    | some l => simpa [Option.all] using hl l rfl
  simp [advance, hb, advanceFuel, hp, hm, hall, Watch.occur, hd, Timer.Stop]

theorem onEvent_write (w : Watch) (e : Event) (he : e.isWriteOrCreate = true) :
    onEvent w e = fire e.time w := by
  simp only [Event.isWriteOrCreate, Bool.and_eq_true, Bool.not_eq_true'] at he
  simp [onEvent, he.1, he.2]

theorem fire_quiet (now : Nat) (w : Watch) (hq : w.Quiet) :
    (fire now w).Quiet ∧ (fire now w).debounce = some { deadline := now + 50, active := true } ∧
      (fire now w).reloads = w.reloads := by
  refine ⟨⟨?_, hq.2⟩, rfl, rfl⟩
  intro t ht
  unfold fire at ht
  cases hdb : w.debounce with
  | none =>
    rw [hdb] at ht
    exact hq.1 t ht
  | some t0 =>
    rw [hdb] at ht
    simp only [List.mem_append, List.mem_singleton] at ht
    rcases ht with ht | rfl
    · exact hq.1 t ht
    · rfl

theorem watchLoop_burst (events : List Event) (prev : Event) (w : Watch) (hq : w.Quiet)
    (hd : w.debounce = some { deadline := prev.time + 50, active := true })
    (hw : ∀ e ∈ events, e.isWriteOrCreate = true)
    (hc : List.Chain (fun a b : Event => a.time ≤ b.time ∧ b.time - a.time < 50) prev events) :
    (watchLoop w events).Quiet ∧
      (watchLoop w events).debounce = some
        { deadline := ((prev :: events).getLast (List.cons_ne_nil prev events)).time + 50,
          active := true } ∧
      (watchLoop w events).reloads = w.reloads := by
  induction events generalizing prev w with
  | nil => exact ⟨hq, hd, rfl⟩
  | cons e es ih =>
    obtain ⟨hr, hc'⟩ := List.chain_cons.1 hc
    have hlt : e.time < prev.time + 50 := by omega
    have hf := fire_quiet e.time w hq
    simp only [watchLoop]
    rw [advance_armed_early e.time w _ hq hd hlt, onEvent_write w e (hw e (List.mem_cons_self _ _))]
    have := ih e (fire e.time w) hf.1 hf.2.1 (fun x hx => hw x (List.mem_cons_of_mem _ hx)) hc'
    rw [hf.2.2] at this
    exact this

theorem watchLoop_spaced (events : List Event) (prev : Event) (w : Watch) (hq : w.Quiet)
    (hd : w.debounce = some { deadline := prev.time + 50, active := true })
    (hw : ∀ e ∈ events, e.isWriteOrCreate = true)
    (hc : List.Chain (fun a b : Event => a.time ≤ b.time ∧ 50 < b.time - a.time) prev events) :
    (watchLoop w events).Quiet ∧
      (∃ d, (watchLoop w events).debounce = some { deadline := d, active := true }) ∧
      (watchLoop w events).reloads.length = w.reloads.length + events.length := by
  induction events generalizing prev w with
  | nil => exact ⟨hq, ⟨_, hd⟩, rfl⟩
  | cons e es ih =>
    obtain ⟨hr, hc'⟩ := List.chain_cons.1 hc
    have hle : ∀ l, some e.time = some l → prev.time + 50 ≤ l := by
      intro l hl
      cases hl
      omega
    simp only [watchLoop]
    rw [advance_armed_due (some e.time) w _ hq hd hle,
      onEvent_write _ e (hw e (List.mem_cons_self _ _))]
    have hq' : ∀ (t : Option Timer) (log : List Nat), Watch.Quiet
        { debounce := t, dropped := w.dropped, sleepers := w.sleepers, reloads := log } :=
      fun _ _ => hq
    have hf := fire_quiet e.time
      { debounce := some { deadline := prev.time + 50, active := false }, dropped := w.dropped,
        sleepers := w.sleepers, reloads := w.reloads ++ [prev.time + 50] } (hq' _ _)
    have := ih e _ hf.1 hf.2.1 (fun x hx => hw x (List.mem_cons_of_mem _ hx)) hc'
    rw [hf.2.2] at this
    refine ⟨this.1, this.2.1, ?_⟩
    rw [this.2.2]
    simp only [List.length_append, List.length_cons, List.length_nil]
    omega

theorem watchLoop_first (e : Event) (es : List Event) (he : e.isWriteOrCreate = true) :
    watchLoop Watch.init (e :: es) = watchLoop (fire e.time Watch.init) es := by
  have hq : Watch.init.Quiet := ⟨by simp [Watch.init], rfl⟩
  simp only [watchLoop]
  rw [advance_idle _ _ hq (by simp [Watch.init]), onEvent_write _ e he]

theorem advance_none_armed (w : Watch) (d : Nat) (hq : w.Quiet)
    (hd : w.debounce = some { deadline := d, active := true }) :
    (advance none w).reloads = w.reloads ++ [d] ∧ (advance none w).pending = [] := by
  rw [advance_armed_due none w d hq hd (by simp)]
  refine ⟨rfl, ?_⟩
  unfold Watch.pending
  simp only
  rw [filter_active_nil _ hq.1, hq.2]
  simp

/-! ### The budget of `advance` is enough -/

theorem runFirst_length (time : Nat) (l : List Timer)
    (h : l.any (fun t => t.active && decide (t.deadline = time)) = true) :
    ((runFirst time l).filter (fun t => t.active)).length + 1
      = (l.filter (fun t => t.active)).length := by
  induction l with
  | nil => simp at h
  | cons a t ih =>
    by_cases ha : (a.active && decide (a.deadline = time)) = true
    · have ha2 := ha
      simp only [Bool.and_eq_true, decide_eq_true_eq] at ha2
      simp [runFirst, List.filter, ha2.1, ha2.2, Timer.Stop]
    · have ha' : (a.active && decide (a.deadline = time)) = false := by simpa using ha
      have ht : t.any (fun t => t.active && decide (t.deadline = time)) = true := by
        simpa [List.any_cons, ha'] using h
      have := ih ht
      simp only [runFirst, ha', Bool.false_eq_true, if_false]
      cases hact : a.active
      · simpa [List.filter, hact] using this
      · simp only [List.filter, hact, List.length_cons]
        omega

theorem occur_budget (w : Watch) (time : Nat) (h : time ∈ w.pending) :
    (w.occur time).budget < w.budget := by
  unfold Watch.pending at h
  simp only [List.mem_append, List.mem_map, List.mem_filter] at h
  by_cases hany : w.dropped.any (fun t => t.active && decide (t.deadline = time)) = true
  · have hlen := runFirst_length time w.dropped hany
    cases hdb : w.debounce with
    | none =>
      simp only [Watch.occur, hdb, hany, if_true, Watch.budget]
      omega
    | some tm =>
      by_cases htm : (tm.active && decide (tm.deadline = time)) = true
      · have htm2 := htm
        simp only [Bool.and_eq_true, decide_eq_true_eq] at htm2
        simp [Watch.occur, hdb, Watch.budget, Timer.Stop, htm2.1, htm2.2]
      · have htm' : (tm.active && decide (tm.deadline = time)) = false := by simpa using htm
        simp only [Watch.occur, hdb, htm', Bool.false_eq_true, if_false, hany, if_true,
          Watch.budget]
        omega
  · have hany' : w.dropped.any (fun t => t.active && decide (t.deadline = time)) = false := by
      simpa using hany
    have hnd : ¬ ∃ a, (a ∈ w.dropped ∧ a.active = true) ∧ a.deadline = time := by
      rintro ⟨a, ⟨ha, hact⟩, hdl⟩
      apply hany
      rw [List.any_eq_true]
      exact ⟨a, ha, by simp [hact, hdl]⟩
    cases hdb : w.debounce with
    | none =>
      have hs : time ∈ w.sleepers := by
        rcases h with (h | h) | h
        · exact absurd h hnd
        · simp [hdb] at h
        · exact h
      have hl := List.length_erase_of_mem hs
      have hpos : 0 < w.sleepers.length := List.length_pos_of_mem hs
      simp only [Watch.occur, hdb, hany', Bool.false_eq_true, if_false, Watch.budget, fire,
        Option.toList, List.filter, List.length_cons, List.length_nil, hl]
      omega
    | some tm =>
      by_cases htm : (tm.active && decide (tm.deadline = time)) = true
      · have htm2 := htm
        simp only [Bool.and_eq_true, decide_eq_true_eq] at htm2
        simp [Watch.occur, hdb, Watch.budget, Timer.Stop, htm2.1, htm2.2]
      · have htm' : (tm.active && decide (tm.deadline = time)) = false := by simpa using htm
        have hs : time ∈ w.sleepers := by
          rcases h with (h | h) | h
          · exact absurd h hnd
          · exfalso
            apply htm
            obtain ⟨a, ⟨ha, hact⟩, hdl⟩ := h
            simp only [hdb, Option.toList, List.mem_singleton] at ha
            subst ha
            simp [hact, hdl]
          · exact h
        have hl := List.length_erase_of_mem hs
        have hpos : 0 < w.sleepers.length := List.length_pos_of_mem hs
        have hstop : (w.dropped ++ [tm.Stop]).filter (fun t => t.active)
            = w.dropped.filter (fun t => t.active) := by
          simp [List.filter_append, Timer.Stop, List.filter]
        simp only [Watch.occur, hdb, htm', Bool.false_eq_true, if_false, hany', Watch.budget,
          fire, hstop, Option.toList, List.filter, List.length_cons, List.length_nil, hl]
        split <;> omega

theorem pending_nil_of_budget (w : Watch) (h : w.budget = 0) : w.pending = [] := by
  unfold Watch.budget at h
  have h1 : (w.dropped.filter (fun t => t.active)).length = 0 := by omega
  have h2 : (w.debounce.toList.filter (fun t => t.active)).length = 0 := by omega
  have h3 : w.sleepers.length = 0 := by omega
  unfold Watch.pending
  rw [List.length_eq_zero] at h1 h2 h3
  rw [h1, h2, h3]
  rfl

/-- The fuel handed out by `advance` never runs out: once `advance` returns,
nothing that is pending is due within the limit. -/
theorem advanceFuel_settles (fuel : Nat) (limit : Option Nat) (w : Watch)
    (h : w.budget ≤ fuel) :
    ∀ time, (advanceFuel fuel limit w).pending.min? = some time →
      limit.all (fun l => decide (time ≤ l)) = false := by
  induction fuel generalizing w with
  | zero =>
    intro time ht
    have hb : w.budget = 0 := by omega
    simp [advanceFuel, pending_nil_of_budget w hb] at ht
  | succ n ih =>
    intro time ht
    unfold advanceFuel at ht
    cases hm : w.pending.min? with
    | none =>
      rw [hm] at ht
      simp only at ht
      rw [hm] at ht
      exact absurd ht (by simp)
    | some t0 =>
      rw [hm] at ht
      simp only at ht
      by_cases hdue : limit.all (fun l => decide (t0 ≤ l)) = true
      · rw [if_pos hdue] at ht
        have hmem : t0 ∈ w.pending := List.min?_mem (fun a b => by omega) hm
        have := occur_budget w t0 hmem
        exact ih (w.occur t0) (by omega) time ht
      · rw [if_neg hdue] at ht
        rw [hm] at ht
        cases ht
        simpa using hdue

theorem advance_settles (limit : Option Nat) (w : Watch) :
    ∀ time, (advance limit w).pending.min? = some time →
      limit.all (fun l => decide (time ≤ l)) = false :=
  advanceFuel_settles w.budget limit w (Nat.le_refl _)

/-! ## Claims on the watcher -/

/-- C7: for a stream of N ≥ 1 events, each a write or create event (and not a
rename or remove event), handled by the event loop from its initial state
and followed until nothing is pending: when every event follows the previous
one by less than 50 ms the callback runs once, 50 ms after the last event,
so there is exactly one re-render; when every event follows the previous one
by more than 50 ms there are exactly N re-renders. -/
theorem debounce_rerenders (events : List Event) (hne : events ≠ [])
    (hw : ∀ e ∈ events, e.isWriteOrCreate = true) :
    (List.Chain' (fun a b : Event => a.time ≤ b.time ∧ b.time - a.time < 50) events →
      rerenders events = 1 ∧ (runWatch events).reloads = [(events.getLast hne).time + 50] ∧
        (runWatch events).pending = []) ∧
    (List.Chain' (fun a b : Event => a.time ≤ b.time ∧ 50 < b.time - a.time) events →
      rerenders events = events.length ∧ (runWatch events).pending = []) := by
  cases events with
  | nil => exact absurd rfl hne
  | cons e es =>
    have he := hw e (List.mem_cons_self _ _)
    have hes : ∀ x ∈ es, x.isWriteOrCreate = true := fun x hx => hw x (List.mem_cons_of_mem _ hx)
    have hq : Watch.init.Quiet := ⟨by simp [Watch.init], rfl⟩
    have hf := fire_quiet e.time Watch.init hq
    constructor
    · intro hc
      have h := watchLoop_burst es e _ hf.1 hf.2.1 hes hc
      have ha := advance_none_armed _ _ h.1 h.2.1
      have hr : (runWatch (e :: es)).reloads = [((e :: es).getLast hne).time + 50] := by
        unfold runWatch
        rw [watchLoop_first e es he, ha.1, h.2.2, hf.2.2]
        rfl
      refine ⟨?_, hr, ?_⟩
      · unfold rerenders
        rw [hr]
        rfl
      · unfold runWatch
        rw [watchLoop_first e es he]
        exact ha.2
    · intro hc
      have h := watchLoop_spaced es e _ hf.1 hf.2.1 hes hc
      obtain ⟨d, hd⟩ := h.2.1
      have ha := advance_none_armed _ d h.1 hd
      constructor
      · unfold rerenders runWatch
        rw [watchLoop_first e es he, ha.1, List.length_append, h.2.2, hf.2.2]
        simp [Watch.init]
      · unfold runWatch
        rw [watchLoop_first e es he]
        exact ha.2

/-- Witness of C7: three events 10 ms apart give one re-render, three events
60 ms apart give three. -/
theorem debounce_rerenders_witness :
    rerenders [⟨100, Write⟩, ⟨110, Write⟩, ⟨120, Create⟩] = 1 ∧
      rerenders [⟨100, Write⟩, ⟨160, Create⟩, ⟨220, Write⟩] = 3 :=
  ⟨((debounce_rerenders [⟨100, Write⟩, ⟨110, Write⟩, ⟨120, Create⟩] (by decide) (by decide)).1
      (by simp)).1,
    ((debounce_rerenders [⟨100, Write⟩, ⟨160, Create⟩, ⟨220, Write⟩] (by decide) (by decide)).2
      (by simp)).1⟩

end Markymark
